import Mathlib

/-!
Verification of the browser image-compression pipeline
(`src/utils/compressImage.ts`) against its natural-language specification.

The TypeScript source is shallowly embedded: JavaScript numbers are
modelled as rationals (`ℚ`), pixel dimensions as integers, byte sizes as
naturals, and the asynchronous collaborator capabilities (format probing,
bitmap decoding, canvas encoding) as a pure environment record `Env`.
The `while` loops of the source are unrolled with an explicit fuel
argument; fuel exhaustion is a distinguished error that is proven
unreachable for the configurations the claims quantify over.
-/

namespace ImageCompression

/-- The four output formats of `types.ts` (`ImageFormat`). -/
inductive ImageFormat
  | webp
  | jpeg
  | png
  | avif
  deriving DecidableEq, Repr

/-- The five resize modes of `types.ts` (`ResizeMode`). -/
inductive ResizeMode
  | contain
  | cover
  | fill
  | inside
  | outside
  deriving DecidableEq, Repr

/-- Lower-case name of a format, as interpolated into MIME strings. -/
def ImageFormat.str : ImageFormat → String
  | .webp => "webp"
  | .jpeg => "jpeg"
  | .png => "png"
  | .avif => "avif"

/-- The MIME type string `image/<format>` built at `compressImage.ts:123`. -/
def mimeOf (f : ImageFormat) : String := "image/" ++ f.str

/-- An encoded byte blob as produced by `canvas.toBlob`: its byte length
and its MIME type tag. -/
structure Blob where
  size : ℕ
  mime : String
  deriving DecidableEq, Repr

/-- The options record of `compressImage` (`CompressionOptions` in
`types.ts`), with the default values of the destructuring at
`compressImage.ts:66-79`. JavaScript numbers are modelled as rationals. -/
structure CompressionOptions where
  maxSizeMB : ℚ := 1/10
  quality : ℚ := 9/10
  maxWidth : ℚ := 800
  maxHeight : Option ℚ := none
  downscaleDivisor : ℚ := 5
  preferredFormat : ImageFormat := .webp
  preserveExif : Bool := false
  resizeMode : ResizeMode := .contain
  minQuality : ℚ := 1/10
  progressive : Bool := false
  debug : Bool := false
  outputFilename : Option String := none

/-- The runtime environment of one `compressImage` call: the decoded
bitmap's pixel dimensions, whether `createImageBitmap` succeeds, the
format-support probe results (`isFormatSupported`), the encoder
(`canvas.toBlob` on a canvas of the given dimensions onto which the
bitmap was drawn under the given resize mode, with an optional quality
factor), and the input's file name when the input is a `File`. -/
structure Env where
  bitmapWidth : ℕ
  bitmapHeight : ℕ
  decodeOk : Bool
  support : ImageFormat → Bool
  encode : ResizeMode → ImageFormat → ℤ → ℤ → Option ℚ → Option Blob
  fileName : Option String

/-- The distinct rejection outcomes of `compressImage`, one per `throw`
site of the source (plus the decode rejection propagated from
`createImageBitmap`, and the fuel marker of the bounded loop model). -/
inductive CompressError
  | decodeFailed
  | encodeFailed (format : ImageFormat)
  | pngTooLarge
  | sizeUnreachable
  | noValidOutput
  | outOfFuel
  deriving DecidableEq, Repr

/-- JavaScript `Math.round`: round half toward positive infinity. -/
def jsRound (x : ℚ) : ℤ := ⌊x + 1/2⌋

/-- One downscale application `Math.floor(w * 0.9)` with the fixed step
factor `downscaleStep = 0.9` of `compressImage.ts:86`. -/
def shrinkDim (w : ℤ) : ℤ := ⌊(w : ℚ) * (9/10)⌋

/-- Fuel that provably suffices for the binary-search loop on the
interval `[low, high]`: each iteration shortens the interval by at least
`0.05`, so `⌈20 * (high - low)⌉ + 2` iterations can never be exceeded. -/
def searchFuel (low high : ℚ) : ℕ := (⌈20 * (high - low)⌉ + 1).toNat + 1

/-- The binary-search loop of `encodeWithBestQuality`
(`compressImage.ts:149-162`): encode at `mid = (low+high)/2`; a blob
within budget is recorded as best and `low` moves to `mid + 0.05`,
otherwise `high` moves to `mid - 0.05`; exit when `low > high`.
The recorded best additionally carries the quality factor at which it
was produced, and the loop counts its iterations; both are
specification-side observations of values the source already determines
(the source keeps only the blob). -/
def qualityLoop (encodeAt : ℚ → Option Blob) (maxSizeBytes : ℚ) (fmt : ImageFormat) :
    ℕ → ℚ → ℚ → Option (ℚ × Blob) → ℕ → Except CompressError (Option (ℚ × Blob) × ℕ)
  | 0, low, high, best, steps =>
      if low ≤ high then .error .outOfFuel else .ok (best, steps)
  | fuel + 1, low, high, best, steps =>
      if low ≤ high then
        let mid := (low + high) / 2
        match encodeAt mid with
        | none => .error (.encodeFailed fmt)
        | some blob =>
            if (blob.size : ℚ) ≤ maxSizeBytes then
              qualityLoop encodeAt maxSizeBytes fmt fuel (mid + 1/20) high
                (some (mid, blob)) (steps + 1)
            else
              qualityLoop encodeAt maxSizeBytes fmt fuel low (mid - 1/20) best (steps + 1)
      else .ok (best, steps)

/-- `encodeWithBestQuality` (`compressImage.ts:127-166`): a lossless
(png) canvas is encoded exactly once and must fit the budget; a lossy
canvas runs the quality binary search over `[minQuality, quality]` and
fails with the size-constraints error when no quality fits. -/
def encodeWithBestQuality (env : Env) (mode : ResizeMode)
    (maxSizeBytes minQuality quality : ℚ) (fmt : ImageFormat) (w h : ℤ) :
    Except CompressError Blob :=
  if fmt = ImageFormat.png then
    match env.encode mode .png w h none with
    | none => .error (.encodeFailed .png)
    | some blob =>
        if (blob.size : ℚ) > maxSizeBytes then .error .pngTooLarge else .ok blob
  else
    match qualityLoop (fun q => env.encode mode fmt w h (some q)) maxSizeBytes fmt
        (searchFuel minQuality quality) minQuality quality none 0 with
    | .error e => .error e
    | .ok (none, _) => .error .sizeUnreachable
    | .ok (some (_, blob), _) => .ok blob

/-- The candidate list `[preferredFormat, 'webp', 'avif', 'png', 'jpeg']`
probed at `compressImage.ts:89-98`, in its priority order. -/
def candidateFormats (preferred : ImageFormat) : List ImageFormat :=
  [preferred, .webp, .avif, .png, .jpeg]

/-- Format negotiation (`compressImage.ts:100`): the first probed
candidate reported supported, defaulting to jpeg. -/
def negotiateFormat (preferred : ImageFormat) (support : ImageFormat → Bool) :
    ImageFormat :=
  ((candidateFormats preferred).find? support).getD .jpeg

/-- The lossy formats eligible as a fallback for an oversized png
(`['jpeg', 'webp', 'avif']` at `compressImage.ts:240`). -/
def lossyFallbackFormats : List ImageFormat := [.jpeg, .webp, .avif]

/-- The fallback search of `compressImage.ts:239-241`: the first probed
candidate that is supported, is not png, and is one of the lossy
fallback formats. -/
def findLossyFallback (preferred : ImageFormat) (support : ImageFormat → Bool) :
    Option ImageFormat :=
  (candidateFormats preferred).find? fun f =>
    support f && decide (f ≠ ImageFormat.png) && decide (f ∈ lossyFallbackFormats)

/-- The retry loop of `compressImage` (`compressImage.ts:230-277`).
State: the attempt counter, the current canvas dimensions and the
current format. A thrown encode failure increments `attempts`; a first
failure on png switches to a supported lossy fallback when one exists
and retries at once (`continue`); otherwise, while attempts remain, the
dimensions are shrunk by the step factor twice — once in the catch block
(`compressImage.ts:261-262`) and once more by the trailing oversize
check (`compressImage.ts:269-276`), which sees `bestBlob === null` — and
the loop retries; with attempts exhausted the caught error is rethrown.
A successful encode is re-validated against the budget by the same
trailing check before being returned (defensively; `encodeWithBestQuality`
never returns an oversized blob, see `encodeWithBestQuality_ok_le`). -/
def compressLoop (env : Env) (mode : ResizeMode)
    (maxSizeBytes minQuality quality : ℚ) (preferred : ImageFormat) :
    ℕ → ℕ → ℤ → ℤ → ImageFormat → Except CompressError (Blob × ℤ × ℤ × ImageFormat)
  | 0, _, _, _, _ => .error .outOfFuel
  | fuel + 1, attempts, w, h, fmt =>
      if attempts < 3 then
        match encodeWithBestQuality env mode maxSizeBytes minQuality quality fmt w h with
        | .ok blob =>
            if (blob.size : ℚ) > maxSizeBytes then
              compressLoop env mode maxSizeBytes minQuality quality preferred fuel
                attempts (shrinkDim w) (shrinkDim h) fmt
            else .ok (blob, w, h, fmt)
        | .error e =>
            if fmt = ImageFormat.png ∧ attempts + 1 = 1 then
              match findLossyFallback preferred env.support with
              | some newFmt =>
                  compressLoop env mode maxSizeBytes minQuality quality preferred fuel
                    (attempts + 1) w h newFmt
              | none =>
                  if attempts + 1 < 3 then
                    compressLoop env mode maxSizeBytes minQuality quality preferred fuel
                      (attempts + 1) (shrinkDim (shrinkDim w)) (shrinkDim (shrinkDim h)) fmt
                  else .error e
            else
              if attempts + 1 < 3 then
                compressLoop env mode maxSizeBytes minQuality quality preferred fuel
                  (attempts + 1) (shrinkDim (shrinkDim w)) (shrinkDim (shrinkDim h)) fmt
              else .error e
      else .error .noValidOutput

/-- The byte budget `maxSizeMB * 1024 * 1024` (`compressImage.ts:85`). -/
def maxSizeBytesOf (o : CompressionOptions) : ℚ := o.maxSizeMB * 1024 * 1024

/-- `maxHeight || maxWidth` (`compressImage.ts:84`): JavaScript `||`
falls back when `maxHeight` is `null` or `0` (falsy). -/
def maxHeightAdjusted (o : CompressionOptions) : ℚ :=
  match o.maxHeight with
  | none => o.maxWidth
  | some hh => if hh = 0 then o.maxWidth else hh

/-- The quick pre-downscale of `compressImage.ts:107-116`: when either
original axis exceeds the corresponding maximum times the divisor, both
axes are divided by the divisor and floored. -/
def preDims (env : Env) (o : CompressionOptions) : ℤ × ℤ :=
  if (env.bitmapWidth : ℚ) > o.maxWidth * o.downscaleDivisor ∨
      (env.bitmapHeight : ℚ) > maxHeightAdjusted o * o.downscaleDivisor then
    (⌊(env.bitmapWidth : ℚ) / o.downscaleDivisor⌋,
     ⌊(env.bitmapHeight : ℚ) / o.downscaleDivisor⌋)
  else ((env.bitmapWidth : ℤ), (env.bitmapHeight : ℤ))

/-- The never-upscale canvas scale
`min(maxWidth / origWidth, maxHeightAdjusted / origHeight, 1)`
(`compressImage.ts:118`). -/
def initialScale (env : Env) (o : CompressionOptions) : ℚ :=
  min (o.maxWidth / ((preDims env o).1 : ℚ))
    (min (maxHeightAdjusted o / ((preDims env o).2 : ℚ)) 1)

/-- Initial canvas width `Math.round(origWidth * scale)`
(`compressImage.ts:119`). -/
def initialWidth (env : Env) (o : CompressionOptions) : ℤ :=
  jsRound (((preDims env o).1 : ℚ) * initialScale env o)

/-- Initial canvas height `Math.round(origHeight * scale)`
(`compressImage.ts:120`). -/
def initialHeight (env : Env) (o : CompressionOptions) : ℤ :=
  jsRound (((preDims env o).2 : ℚ) * initialScale env o)

/-- Output filename derivation (`compressImage.ts:280-283`): the
explicit override when truthy, else the input basename (text before the
first dot) with the new extension, else `image.<extension>`. -/
def deriveFilename (env : Env) (o : CompressionOptions) (extension : String) : String :=
  let fallback :=
    match env.fileName with
    | some n => ((n.splitOn ".").headD "") ++ "." ++ extension
    | none => "image." ++ extension
  match o.outputFilename with
  | some s => if s = "" then fallback else s
  | none => fallback

/-- The value of one resolved `compressImage` call: the byte length and
MIME type of the final blob (the `File` is built from the blob and
carries `bestBlob.type`), the derived filename, and the final canvas
dimensions. -/
structure CompressResult where
  size : ℕ
  mime : String
  filename : String
  width : ℤ
  height : ℤ
  deriving DecidableEq, Repr

/-- The full `compressImage` pipeline (`compressImage.ts:62-305`):
probe and negotiate the format, decode, pre-downscale, compute the
initial canvas dimensions, run the bounded retry loop, and derive the
output file. The loop is given fuel 4, enough for its at most three
failing iterations plus one final one. -/
def runCompressImage (env : Env) (o : CompressionOptions) :
    Except CompressError CompressResult :=
  let bestFormat := negotiateFormat o.preferredFormat env.support
  if env.decodeOk = false then .error .decodeFailed
  else
    match compressLoop env o.resizeMode (maxSizeBytesOf o) o.minQuality o.quality
        o.preferredFormat 4 0 (initialWidth env o) (initialHeight env o) bestFormat with
    | .error e => .error e
    | .ok (blob, w, h, fmt) =>
        let extension := if fmt = ImageFormat.jpeg then "jpg" else fmt.str
        .ok { size := blob.size, mime := blob.mime,
              filename := deriveFilename env o extension, width := w, height := h }

/-- Modelled from the claim under scrutiny (C6), for comparison only: a
retry loop that is identical to `compressLoop` except that a failed
attempt shrinks each dimension by exactly ONE application of the 0.9
step factor, as the claim asserts of the source. -/
def compressLoopSingleShrink (env : Env) (mode : ResizeMode)
    (maxSizeBytes minQuality quality : ℚ) (preferred : ImageFormat) :
    ℕ → ℕ → ℤ → ℤ → ImageFormat → Except CompressError (Blob × ℤ × ℤ × ImageFormat)
  | 0, _, _, _, _ => .error .outOfFuel
  | fuel + 1, attempts, w, h, fmt =>
      if attempts < 3 then
        match encodeWithBestQuality env mode maxSizeBytes minQuality quality fmt w h with
        | .ok blob =>
            if (blob.size : ℚ) > maxSizeBytes then
              compressLoopSingleShrink env mode maxSizeBytes minQuality quality preferred fuel
                attempts (shrinkDim w) (shrinkDim h) fmt
            else .ok (blob, w, h, fmt)
        | .error e =>
            if fmt = ImageFormat.png ∧ attempts + 1 = 1 then
              match findLossyFallback preferred env.support with
              | some newFmt =>
                  compressLoopSingleShrink env mode maxSizeBytes minQuality quality preferred
                    fuel (attempts + 1) w h newFmt
              | none =>
                  if attempts + 1 < 3 then
                    compressLoopSingleShrink env mode maxSizeBytes minQuality quality preferred
                      fuel (attempts + 1) (shrinkDim w) (shrinkDim h) fmt
                  else .error e
            else
              if attempts + 1 < 3 then
                compressLoopSingleShrink env mode maxSizeBytes minQuality quality preferred
                  fuel (attempts + 1) (shrinkDim w) (shrinkDim h) fmt
              else .error e
      else .error .noValidOutput

/-- Modelled from the claim under scrutiny (C4), for comparison only:
take the first supported candidate in the fixed priority order
`[preferred, webp, avif, png, jpeg]`, and jpeg when none is supported. -/
def negotiateSpec (p : ImageFormat) (s : ImageFormat → Bool) : ImageFormat :=
  if s p then p
  else if s .webp then .webp
  else if s .avif then .avif
  else if s .png then .png
  else if s .jpeg then .jpeg
  else .jpeg

section ConcreteEnvironments

/-- An environment in which every format is supported and every encode
yields a 1000-byte blob: compressions under the default options succeed
on the first attempt. -/
def envAlwaysSmall : Env where
  bitmapWidth := 100
  bitmapHeight := 100
  decodeOk := true
  support := fun _ => true
  encode := fun _ f _ _ _ => some ⟨1000, mimeOf f⟩
  fileName := none

/-- `envAlwaysSmall` with a failing bitmap decode. -/
def envDecodeFails : Env :=
  { envAlwaysSmall with decodeOk := false }

/-- An environment in which every encode yields a 200000-byte blob,
larger than the default budget at any quality and any dimensions. -/
def envAlwaysHuge : Env where
  bitmapWidth := 100
  bitmapHeight := 100
  decodeOk := true
  support := fun _ => true
  encode := fun _ f _ _ _ => some ⟨200000, mimeOf f⟩
  fileName := none

/-- An environment whose encodes fit the default budget exactly when the
canvas width is at most 90 pixels: it separates one application of the
0.9 downscale step (100 → 90) from two (100 → 81). -/
def envFitsAtNinety : Env where
  bitmapWidth := 100
  bitmapHeight := 100
  decodeOk := true
  support := fun _ => true
  encode := fun _ f w _ _ => some ⟨if w ≤ 90 then 1000 else 200000, mimeOf f⟩
  fileName := none

/-- An environment in which only png is supported and the png encode
fits the default budget exactly when the canvas width is at most 81
pixels: an oversized png with no lossy fallback available. -/
def envPngOnly : Env where
  bitmapWidth := 100
  bitmapHeight := 100
  decodeOk := true
  support := fun f => decide (f = ImageFormat.png)
  encode := fun _ f w _ _ => some ⟨if w ≤ 81 then 1000 else 200000, mimeOf f⟩
  fileName := none

/-- An environment in which every format is supported, png encodes are
always over the default budget, and lossy encodes always fit it. -/
def envPngHugeLossySmall : Env where
  bitmapWidth := 100
  bitmapHeight := 100
  decodeOk := true
  support := fun _ => true
  encode := fun _ f _ _ _ =>
    some ⟨if f = ImageFormat.png then 200000 else 1000, mimeOf f⟩
  fileName := none

/-- A synthetic monotone encoded-size function: 1 byte up to quality
0.73, then 2 bytes. With budget 1 the highest in-budget quality in
`[0.5, 0.78]` is 0.73, while the binary search settles at 0.64. -/
def sizeStepAt73 (q : ℚ) : ℕ := if q ≤ 73/100 then 1 else 2

/-- A synthetic encoded-size function that is constantly 1 byte:
trivially monotone and always within any positive budget. -/
def sizeConstOne (_ : ℚ) : ℕ := 1

end ConcreteEnvironments

section SearchFuelLemmas

lemma searchFuel_pos (low high : ℚ) : 1 ≤ searchFuel low high := by
  unfold searchFuel; omega

lemma searchFuel_ge_two (low high : ℚ) (h : low ≤ high) : 2 ≤ searchFuel low high := by
  unfold searchFuel
  have h1 : (0 : ℚ) ≤ 20 * (high - low) := by linarith
  have h2 : (0 : ℤ) ≤ ⌈20 * (high - low)⌉ := Int.ceil_nonneg h1
  omega

lemma searchFuel_shrink (L : ℚ) (hL : 0 ≤ L) :
    (⌈20 * (L / 2 - 1/20)⌉ + 1).toNat + 1 + 1 ≤ (⌈20 * L⌉ + 1).toNat + 1 := by
  have h1 : 20 * (L / 2 - 1/20) = 10 * L - 1 := by ring
  rw [h1]
  have h2 : ⌈(10 * L : ℚ) - 1⌉ = ⌈(10 * L : ℚ)⌉ - 1 := by
    have h0 := Int.ceil_sub_int (10 * L : ℚ) 1
    simp only [Int.cast_one] at h0
    exact h0
  rw [h2]
  have h3 : (0 : ℤ) ≤ ⌈(10 * L : ℚ)⌉ := Int.ceil_nonneg (by linarith)
  have h4 : ⌈(10 * L : ℚ)⌉ ≤ ⌈(20 * L : ℚ)⌉ := Int.ceil_le_ceil (by linarith)
  omega

lemma searchFuel_step_accept (low high : ℚ) (h : low ≤ high) :
    searchFuel ((low + high) / 2 + 1/20) high + 1 ≤ searchFuel low high := by
  unfold searchFuel
  have e1 : high - ((low + high) / 2 + 1/20) = (high - low) / 2 - 1/20 := by ring
  rw [e1]
  exact searchFuel_shrink (high - low) (by linarith)

lemma searchFuel_step_reject (low high : ℚ) (h : low ≤ high) :
    searchFuel low ((low + high) / 2 - 1/20) + 1 ≤ searchFuel low high := by
  unfold searchFuel
  have e1 : ((low + high) / 2 - 1/20) - low = (high - low) / 2 - 1/20 := by ring
  rw [e1]
  exact searchFuel_shrink (high - low) (by linarith)

end SearchFuelLemmas

section QualityLoopLemmas

variable (e : ℚ → Option Blob) (B : ℚ) (fmt : ImageFormat)

/-- Any best blob the binary search returns is within budget, provided
the initially recorded best (none, at the call site) is. -/
lemma qualityLoop_ok_size_le :
    ∀ (fuel : ℕ) (low high : ℚ) (best : Option (ℚ × Blob)) (steps : ℕ)
      (q : ℚ) (b : Blob) (st : ℕ),
      (∀ q0 b0, best = some (q0, b0) → (b0.size : ℚ) ≤ B) →
      qualityLoop e B fmt fuel low high best steps = .ok (some (q, b), st) →
      (b.size : ℚ) ≤ B := by
  intro fuel
  induction fuel with
  | zero =>
    intro low high best steps q b st hbest hrun
    simp only [qualityLoop] at hrun
    split at hrun
    · exact absurd hrun (by simp)
    · simp only [Except.ok.injEq, Prod.mk.injEq] at hrun
      exact hbest q b hrun.1
  | succ n ih =>
    intro low high best steps q b st hbest hrun
    simp only [qualityLoop] at hrun
    split at hrun
    · split at hrun
      · exact absurd hrun (by simp)
      · rename_i blob hE
        split at hrun
        · rename_i hsz
          refine ih _ _ _ _ q b st ?_ hrun
          intro q0 b0 hb0
          simp only [Option.some.injEq, Prod.mk.injEq] at hb0
          rw [← hb0.2]
          exact hsz
        · exact ih _ _ _ _ q b st hbest hrun
    · simp only [Except.ok.injEq, Prod.mk.injEq] at hrun
      exact hbest q b hrun.1

/-- With at least `searchFuel low high` fuel the binary search never
exhausts its fuel: each iteration shortens the interval by 0.05. -/
lemma qualityLoop_ne_outOfFuel :
    ∀ (fuel : ℕ) (low high : ℚ) (best : Option (ℚ × Blob)) (steps : ℕ),
      searchFuel low high ≤ fuel →
      qualityLoop e B fmt fuel low high best steps ≠ .error .outOfFuel := by
  intro fuel
  induction fuel with
  | zero =>
    intro low high best steps hfuel
    have := searchFuel_pos low high
    omega
  | succ n ih =>
    intro low high best steps hfuel
    simp only [qualityLoop]
    split
    · rename_i hlh
      split
      · simp
      · split
        · exact ih _ _ _ _ (by have := searchFuel_step_accept low high hlh; omega)
        · exact ih _ _ _ _ (by have := searchFuel_step_reject low high hlh; omega)
    · simp

/-- The iteration count of the binary search is bounded by the fuel
estimate for its interval. -/
lemma qualityLoop_steps_le :
    ∀ (fuel : ℕ) (low high : ℚ) (best : Option (ℚ × Blob)) (steps : ℕ)
      (res : Option (ℚ × Blob)) (st : ℕ),
      qualityLoop e B fmt fuel low high best steps = .ok (res, st) →
      st + 1 ≤ steps + searchFuel low high := by
  intro fuel
  induction fuel with
  | zero =>
    intro low high best steps res st hrun
    simp only [qualityLoop] at hrun
    split at hrun
    · exact absurd hrun (by simp)
    · simp only [Except.ok.injEq, Prod.mk.injEq] at hrun
      have := searchFuel_pos low high
      omega
  | succ n ih =>
    intro low high best steps res st hrun
    simp only [qualityLoop] at hrun
    split at hrun
    · rename_i hlh
      split at hrun
      · exact absurd hrun (by simp)
      · split at hrun
        · have := ih _ _ _ _ _ _ hrun
          have := searchFuel_step_accept low high hlh
          omega
        · have := ih _ _ _ _ _ _ hrun
          have := searchFuel_step_reject low high hlh
          omega
    · simp only [Except.ok.injEq, Prod.mk.injEq] at hrun
      have := searchFuel_pos low high
      omega

/-- Once a best candidate is recorded it is never forgotten, only
overwritten. -/
lemma qualityLoop_some_preserved :
    ∀ (fuel : ℕ) (low high : ℚ) (p : ℚ × Blob) (steps : ℕ)
      (res : Option (ℚ × Blob)) (st : ℕ),
      qualityLoop e B fmt fuel low high (some p) steps = .ok (res, st) →
      ∃ p2, res = some p2 := by
  intro fuel
  induction fuel with
  | zero =>
    intro low high p steps res st hrun
    simp only [qualityLoop] at hrun
    split at hrun
    · exact absurd hrun (by simp)
    · simp only [Except.ok.injEq, Prod.mk.injEq] at hrun
      exact ⟨p, hrun.1.symm⟩
  | succ n ih =>
    intro low high p steps res st hrun
    simp only [qualityLoop] at hrun
    split at hrun
    · split at hrun
      · exact absurd hrun (by simp)
      · split at hrun
        · exact ih _ _ _ _ _ _ hrun
        · exact ih _ _ _ _ _ _ hrun
    · simp only [Except.ok.injEq, Prod.mk.injEq] at hrun
      exact ⟨p, hrun.1.symm⟩

/-- When every encode is over budget the search rejects every probe and
reports no usable result. -/
lemma qualityLoop_allover_none
    (hsome : ∀ q, e q ≠ none)
    (hover : ∀ q b, e q = some b → (b.size : ℚ) > B) :
    ∀ (fuel : ℕ) (low high : ℚ) (steps : ℕ),
      searchFuel low high ≤ fuel →
      ∃ st, qualityLoop e B fmt fuel low high none steps = .ok (none, st) := by
  intro fuel
  induction fuel with
  | zero =>
    intro low high steps hfuel
    have := searchFuel_pos low high
    omega
  | succ n ih =>
    intro low high steps hfuel
    simp only [qualityLoop]
    split
    · rename_i hlh
      cases hE : e ((low + high) / 2) with
      | none => exact absurd hE (hsome _)
      | some blob =>
        have hgt := hover _ _ hE
        simp only [hE]
        rw [if_neg (by linarith)]
        exact ih _ _ _ (by have := searchFuel_step_reject low high hlh; omega)
    · exact ⟨steps, rfl⟩

/-- When every encode fits the budget the search accepts every probe and
returns a recorded best. -/
lemma qualityLoop_allfit_some
    (hfit : ∀ q, ∃ b, e q = some b ∧ (b.size : ℚ) ≤ B) :
    ∀ (fuel : ℕ) (low high : ℚ) (best : Option (ℚ × Blob)) (steps : ℕ),
      searchFuel low high ≤ fuel → low ≤ high →
      ∃ qb b st, qualityLoop e B fmt fuel low high best steps = .ok (some (qb, b), st) ∧
        e qb = some b := by
  intro fuel
  induction fuel with
  | zero =>
    intro low high best steps hfuel _
    have := searchFuel_pos low high
    omega
  | succ n ih =>
    intro low high best steps hfuel hlh
    obtain ⟨b, hE, hsz⟩ := hfit ((low + high) / 2)
    simp only [qualityLoop]
    rw [if_pos hlh]
    simp only [hE]
    rw [if_pos hsz]
    by_cases hlh2 : (low + high) / 2 + 1/20 ≤ high
    · exact ih _ _ _ _ (by have := searchFuel_step_accept low high hlh; omega) hlh2
    · have hn : 1 ≤ n := by
        have := searchFuel_ge_two low high hlh
        omega
      obtain ⟨m, rfl⟩ : ∃ m, n = m + 1 := ⟨n - 1, by omega⟩
      refine ⟨(low + high) / 2, b, steps + 1, ?_, hE⟩
      simp only [qualityLoop]
      rw [if_neg hlh2]

end QualityLoopLemmas

section OptimalityLemmas

/-- Invariant transport for the binary search under a monotone encoded
size function `sz`: any in-budget quality below the initial `high`
watermark `hi0` stays within `0.05` of the moving upper end, and the
recorded best always sits `0.05` below the moving lower end. At exit this
pins every in-budget quality to within strictly less than `0.1` of the
returned best quality (or of the initial lower end when none is
returned). -/
lemma qualityLoop_opt (sz : ℚ → ℕ) (m : String) (B hi0 : ℚ) (fmt : ImageFormat)
    (hmono : ∀ x y : ℚ, x ≤ y → sz x ≤ sz y) :
    ∀ (fuel : ℕ) (low high : ℚ) (best : Option (ℚ × Blob)) (steps : ℕ)
      (res : Option (ℚ × Blob)) (st : ℕ),
      qualityLoop (fun q => some ⟨sz q, m⟩) B fmt fuel low high best steps = .ok (res, st) →
      (∀ x : ℚ, (sz x : ℚ) ≤ B → x ≤ hi0 → x ≤ high + 1/20) →
      (∀ q0 b0, best = some (q0, b0) → low = q0 + 1/20) →
      ((∀ q0 b0, res = some (q0, b0) →
          ∀ x : ℚ, (sz x : ℚ) ≤ B → x ≤ hi0 → x < q0 + 1/10) ∧
        (res = none → ∀ x : ℚ, (sz x : ℚ) ≤ B → x ≤ hi0 → x < low + 1/20)) := by
  intro fuel
  induction fuel with
  | zero =>
    intro low high best steps res st hrun hub hbl
    simp only [qualityLoop] at hrun
    split at hrun
    · exact absurd hrun (by simp)
    · rename_i hlh
      rw [not_le] at hlh
      simp only [Except.ok.injEq, Prod.mk.injEq] at hrun
      obtain ⟨hb, -⟩ := hrun
      subst hb
      constructor
      · intro q0 b0 hres x hx hx0
        have h1 := hub x hx hx0
        have h2 := hbl q0 b0 hres
        linarith
      · intro hres x hx hx0
        have h1 := hub x hx hx0
        linarith
  | succ n ih =>
    intro low high best steps res st hrun hub hbl
    simp only [qualityLoop] at hrun
    split at hrun
    · rename_i hlh
      split at hrun
      · rename_i hsz
        have hres2 := qualityLoop_some_preserved _ B fmt n _ _ _ _ _ _ hrun
        have hmain := ih _ _ _ _ _ _ hrun hub (by
          intro q0 b0 hp
          simp only [Option.some.injEq, Prod.mk.injEq] at hp
          rw [hp.1])
        refine ⟨hmain.1, ?_⟩
        intro hres
        obtain ⟨p2, hp2⟩ := hres2
        rw [hres] at hp2
        exact absurd hp2 (by simp)
      · rename_i hsz
        rw [not_le] at hsz
        refine ih _ _ _ _ _ _ hrun ?_ hbl
        intro x hx hx0
        have hxlt : x < (low + high) / 2 := by
          by_contra hge
          rw [not_lt] at hge
          have := hmono _ _ hge
          have hcast : ((sz ((low + high) / 2) : ℕ) : ℚ) ≤ (sz x : ℚ) := by
            exact_mod_cast this
          linarith
        linarith
    · rename_i hlh
      rw [not_le] at hlh
      simp only [Except.ok.injEq, Prod.mk.injEq] at hrun
      obtain ⟨hb, -⟩ := hrun
      subst hb
      constructor
      · intro q0 b0 hres x hx hx0
        have h1 := hub x hx hx0
        have h2 := hbl q0 b0 hres
        linarith
      · intro hres x hx hx0
        have h1 := hub x hx hx0
        linarith

end OptimalityLemmas

section EncodeLemmas

/-- A blob returned by `encodeWithBestQuality` is always within budget:
the png branch throws on an oversized blob and the lossy branch only
records in-budget blobs. -/
lemma encodeWithBestQuality_ok_le (env : Env) (mode : ResizeMode)
    (B minQ q : ℚ) (fmt : ImageFormat) (w h : ℤ) (blob : Blob)
    (hok : encodeWithBestQuality env mode B minQ q fmt w h = .ok blob) :
    (blob.size : ℚ) ≤ B := by
  unfold encodeWithBestQuality at hok
  split at hok
  · split at hok
    · exact absurd hok (by simp)
    · split at hok
      · exact absurd hok (by simp)
      · rename_i hle
        rw [not_lt] at hle
        simp only [Except.ok.injEq] at hok
        rw [← hok]
        exact hle
  · split at hok
    · exact absurd hok (by simp)
    · exact absurd hok (by simp)
    · rename_i qb b st heq
      simp only [Except.ok.injEq] at hok
      rw [← hok]
      exact qualityLoop_ok_size_le _ B fmt _ _ _ _ _ qb b st (by simp) heq

/-- When the current format is lossy and every encode at these
dimensions is produced but over budget, `encodeWithBestQuality` fails
with the size-constraints error. -/
lemma encodeWithBestQuality_allover (env : Env) (mode : ResizeMode)
    (B minQ q : ℚ) (fmt : ImageFormat) (w h : ℤ)
    (hfmt : fmt ≠ .png)
    (hsome : ∀ q0, env.encode mode fmt w h (some q0) ≠ none)
    (hover : ∀ q0 b, env.encode mode fmt w h (some q0) = some b → (b.size : ℚ) > B) :
    encodeWithBestQuality env mode B minQ q fmt w h = .error .sizeUnreachable := by
  unfold encodeWithBestQuality
  rw [if_neg hfmt]
  obtain ⟨st, hst⟩ := qualityLoop_allover_none (fun q0 => env.encode mode fmt w h (some q0))
    B fmt hsome hover (searchFuel minQ q) minQ q 0 le_rfl
  rw [hst]

end EncodeLemmas

section CompressLoopLemmas

variable (env : Env) (mode : ResizeMode) (B minQ q : ℚ) (pref : ImageFormat)

/-- Any blob returned by the retry loop is within budget: its trailing
oversize check re-validates every accepted blob. -/
lemma compressLoop_ok_size_le :
    ∀ (fuel attempts : ℕ) (w h : ℤ) (fmt : ImageFormat)
      (blob : Blob) (w2 h2 : ℤ) (fmt2 : ImageFormat),
      compressLoop env mode B minQ q pref fuel attempts w h fmt = .ok (blob, w2, h2, fmt2) →
      (blob.size : ℚ) ≤ B := by
  intro fuel
  induction fuel with
  | zero =>
    intro attempts w h fmt blob w2 h2 fmt2 hrun
    exact absurd hrun (by simp [compressLoop])
  | succ n ih =>
    intro attempts w h fmt blob w2 h2 fmt2 hrun
    simp only [compressLoop] at hrun
    split at hrun
    · split at hrun
      · split at hrun
        · exact ih _ _ _ _ _ _ _ _ hrun
        · rename_i hle
          rw [not_lt] at hle
          simp only [Except.ok.injEq, Prod.mk.injEq] at hrun
          rw [← hrun.1]
          exact hle
      · split at hrun
        · split at hrun
          · exact ih _ _ _ _ _ _ _ _ hrun
          · split at hrun
            · exact ih _ _ _ _ _ _ _ _ hrun
            · exact absurd hrun (by simp)
        · split at hrun
          · exact ih _ _ _ _ _ _ _ _ hrun
          · exact absurd hrun (by simp)
    · exact absurd hrun (by simp)

/-- One downscale application never enlarges a nonnegative dimension. -/
lemma shrinkDim_le (w : ℤ) (hw : 0 ≤ w) : shrinkDim w ≤ w := by
  unfold shrinkDim
  calc ⌊(w : ℚ) * (9/10)⌋ ≤ ⌊((w : ℤ) : ℚ)⌋ := by
        apply Int.floor_le_floor
        have : (0 : ℚ) ≤ (w : ℚ) := by exact_mod_cast hw
        linarith
    _ = w := Int.floor_intCast w

/-- One downscale application keeps a nonnegative dimension
nonnegative. -/
lemma shrinkDim_nonneg (w : ℤ) (hw : 0 ≤ w) : 0 ≤ shrinkDim w := by
  unfold shrinkDim
  rw [Int.le_floor]
  have : (0 : ℚ) ≤ (w : ℚ) := by exact_mod_cast hw
  push_cast
  linarith

/-- The retry loop only ever shrinks the canvas dimensions: the
dimensions of a successful outcome are bounded by the dimensions the
loop was entered with. -/
lemma compressLoop_dims_le :
    ∀ (fuel attempts : ℕ) (w h : ℤ) (fmt : ImageFormat)
      (blob : Blob) (w2 h2 : ℤ) (fmt2 : ImageFormat),
      0 ≤ w → 0 ≤ h →
      compressLoop env mode B minQ q pref fuel attempts w h fmt = .ok (blob, w2, h2, fmt2) →
      w2 ≤ w ∧ h2 ≤ h ∧ 0 ≤ w2 ∧ 0 ≤ h2 := by
  intro fuel
  induction fuel with
  | zero =>
    intro attempts w h fmt blob w2 h2 fmt2 hw hh hrun
    exact absurd hrun (by simp [compressLoop])
  | succ n ih =>
    intro attempts w h fmt blob w2 h2 fmt2 hw hh hrun
    have hw1 : 0 ≤ shrinkDim w := shrinkDim_nonneg w hw
    have hh1 : 0 ≤ shrinkDim h := shrinkDim_nonneg h hh
    have hw2 : 0 ≤ shrinkDim (shrinkDim w) := shrinkDim_nonneg _ hw1
    have hh2 : 0 ≤ shrinkDim (shrinkDim h) := shrinkDim_nonneg _ hh1
    have hwle : shrinkDim w ≤ w := shrinkDim_le w hw
    have hhle : shrinkDim h ≤ h := shrinkDim_le h hh
    have hwle2 : shrinkDim (shrinkDim w) ≤ w := le_trans (shrinkDim_le _ hw1) hwle
    have hhle2 : shrinkDim (shrinkDim h) ≤ h := le_trans (shrinkDim_le _ hh1) hhle
    simp only [compressLoop] at hrun
    split at hrun
    · split at hrun
      · split at hrun
        · obtain ⟨a1, a2, a3, a4⟩ := ih _ _ _ _ _ _ _ _ hw1 hh1 hrun
          exact ⟨le_trans a1 hwle, le_trans a2 hhle, a3, a4⟩
        · simp only [Except.ok.injEq, Prod.mk.injEq] at hrun
          obtain ⟨-, hb1, hb2, -⟩ := hrun
          rw [← hb1, ← hb2]
          exact ⟨le_refl w, le_refl h, hw, hh⟩
      · split at hrun
        · split at hrun
          · exact ih _ _ _ _ _ _ _ _ hw hh hrun
          · split at hrun
            · obtain ⟨a1, a2, a3, a4⟩ := ih _ _ _ _ _ _ _ _ hw2 hh2 hrun
              exact ⟨le_trans a1 hwle2, le_trans a2 hhle2, a3, a4⟩
            · exact absurd hrun (by simp)
        · split at hrun
          · obtain ⟨a1, a2, a3, a4⟩ := ih _ _ _ _ _ _ _ _ hw2 hh2 hrun
            exact ⟨le_trans a1 hwle2, le_trans a2 hhle2, a3, a4⟩
          · exact absurd hrun (by simp)
    · exact absurd hrun (by simp)

end CompressLoopLemmas

section AlloverLoopLemmas

/-- When every encode the environment can perform is over budget and the
current format is lossy, the retry loop fails with the size-constraints
error as soon as its attempt budget `3 - attempts` fits in the remaining
fuel. -/
lemma compressLoop_allover (env : Env) (mode : ResizeMode)
    (B minQ q : ℚ) (pref : ImageFormat)
    (hsome : ∀ m0 f0 w0 h0 q0, env.encode m0 f0 w0 h0 q0 ≠ none)
    (hover : ∀ m0 f0 w0 h0 q0 b, env.encode m0 f0 w0 h0 q0 = some b → (b.size : ℚ) > B) :
    ∀ (fuel attempts : ℕ) (w h : ℤ) (fmt : ImageFormat),
      fmt ≠ .png → attempts ≤ 2 → 3 - attempts ≤ fuel →
      compressLoop env mode B minQ q pref fuel attempts w h fmt =
        .error .sizeUnreachable := by
  intro fuel
  induction fuel with
  | zero =>
    intro attempts w h fmt hfmt ha hfuel
    omega
  | succ n ih =>
    intro attempts w h fmt hfmt ha hfuel
    have hE := encodeWithBestQuality_allover env mode B minQ q fmt w h hfmt
      (fun q0 => hsome _ _ _ _ _) (fun q0 b hb => hover _ _ _ _ _ _ hb)
    simp only [compressLoop]
    rw [if_pos (by omega : attempts < 3)]
    split
    · rename_i blob hblob
      rw [hE] at hblob
      exact absurd hblob (by simp)
    · rename_i e he
      rw [hE] at he
      injection he with he2
      subst he2
      rw [if_neg (show ¬(fmt = ImageFormat.png ∧ attempts + 1 = 1) by simp [hfmt])]
      by_cases hlt : attempts + 1 < 3
      · rw [if_pos hlt]
        exact ih _ _ _ _ hfmt (by omega) (by omega)
      · rw [if_neg hlt]

end AlloverLoopLemmas

section GeometryLemmas

/-- `Math.round` is monotone with respect to an integer upper bound. -/
lemma jsRound_le_intCast (x : ℚ) (n : ℤ) (h : x ≤ (n : ℚ)) : jsRound x ≤ n := by
  unfold jsRound
  calc ⌊x + 1/2⌋ ≤ ⌊1/2 + (n : ℚ)⌋ := Int.floor_le_floor (by linarith)
    _ = ⌊(1/2 : ℚ)⌋ + n := Int.floor_add_int _ _
    _ = n := by norm_num

/-- `Math.round` of a nonnegative quantity is nonnegative. -/
lemma jsRound_nonneg (x : ℚ) (h : 0 ≤ x) : 0 ≤ jsRound x := by
  unfold jsRound
  rw [Int.le_floor]
  push_cast
  linarith

/-- The never-upscale scale factor is nonnegative whenever the
dimension budgets are nonnegative and the source dimensions positive. -/
lemma initialScale_nonneg (env : Env) (o : CompressionOptions)
    (hW : 0 ≤ o.maxWidth) (hH : 0 ≤ maxHeightAdjusted o)
    (h1 : 1 ≤ (preDims env o).1) (h2 : 1 ≤ (preDims env o).2) :
    0 ≤ initialScale env o := by
  have hp1 : (0 : ℚ) < ((preDims env o).1 : ℚ) := by exact_mod_cast (by omega : (0:ℤ) < (preDims env o).1)
  have hp2 : (0 : ℚ) < ((preDims env o).2 : ℚ) := by exact_mod_cast (by omega : (0:ℤ) < (preDims env o).2)
  unfold initialScale
  refine le_min (div_nonneg hW (le_of_lt hp1)) (le_min (div_nonneg hH (le_of_lt hp2)) ?_)
  norm_num

/-- The initial canvas width never exceeds an integral `maxWidth`. -/
lemma initialWidth_le (env : Env) (o : CompressionOptions) (mW : ℕ)
    (hW : o.maxWidth = (mW : ℚ)) (h1 : 1 ≤ (preDims env o).1) :
    initialWidth env o ≤ (mW : ℤ) := by
  have hp1 : (0 : ℚ) < ((preDims env o).1 : ℚ) := by exact_mod_cast (by omega : (0:ℤ) < (preDims env o).1)
  unfold initialWidth
  apply jsRound_le_intCast
  have hscale : initialScale env o ≤ o.maxWidth / ((preDims env o).1 : ℚ) :=
    min_le_left _ _
  have hmul : ((preDims env o).1 : ℚ) * initialScale env o ≤
      ((preDims env o).1 : ℚ) * (o.maxWidth / ((preDims env o).1 : ℚ)) :=
    mul_le_mul_of_nonneg_left hscale (le_of_lt hp1)
  have hcancel : ((preDims env o).1 : ℚ) * (o.maxWidth / ((preDims env o).1 : ℚ)) =
      o.maxWidth := by
    rw [mul_comm]
    exact div_mul_cancel₀ o.maxWidth (ne_of_gt hp1)
  rw [hcancel] at hmul
  rw [hW] at hmul
  exact_mod_cast hmul

/-- The initial canvas height never exceeds the integral adjusted
`maxHeight`. -/
lemma initialHeight_le (env : Env) (o : CompressionOptions) (mH : ℕ)
    (hH : maxHeightAdjusted o = (mH : ℚ)) (h2 : 1 ≤ (preDims env o).2) :
    initialHeight env o ≤ (mH : ℤ) := by
  have hp2 : (0 : ℚ) < ((preDims env o).2 : ℚ) := by exact_mod_cast (by omega : (0:ℤ) < (preDims env o).2)
  unfold initialHeight
  apply jsRound_le_intCast
  have hscale : initialScale env o ≤ maxHeightAdjusted o / ((preDims env o).2 : ℚ) :=
    le_trans (min_le_right _ _) (min_le_left _ _)
  have hmul : ((preDims env o).2 : ℚ) * initialScale env o ≤
      ((preDims env o).2 : ℚ) * (maxHeightAdjusted o / ((preDims env o).2 : ℚ)) :=
    mul_le_mul_of_nonneg_left hscale (le_of_lt hp2)
  have hcancel : ((preDims env o).2 : ℚ) * (maxHeightAdjusted o / ((preDims env o).2 : ℚ)) =
      maxHeightAdjusted o := by
    rw [mul_comm]
    exact div_mul_cancel₀ _ (ne_of_gt hp2)
  rw [hcancel, hH] at hmul
  exact_mod_cast hmul

/-- The initial canvas dimensions are nonnegative. -/
lemma initialWidth_nonneg (env : Env) (o : CompressionOptions)
    (hW : 0 ≤ o.maxWidth) (hH : 0 ≤ maxHeightAdjusted o)
    (h1 : 1 ≤ (preDims env o).1) (h2 : 1 ≤ (preDims env o).2) :
    0 ≤ initialWidth env o := by
  unfold initialWidth
  apply jsRound_nonneg
  have hp1 : (0 : ℚ) ≤ ((preDims env o).1 : ℚ) := by exact_mod_cast (by omega : (0:ℤ) ≤ (preDims env o).1)
  exact mul_nonneg hp1 (initialScale_nonneg env o hW hH h1 h2)

/-- The initial canvas height is nonnegative. -/
lemma initialHeight_nonneg (env : Env) (o : CompressionOptions)
    (hW : 0 ≤ o.maxWidth) (hH : 0 ≤ maxHeightAdjusted o)
    (h1 : 1 ≤ (preDims env o).1) (h2 : 1 ≤ (preDims env o).2) :
    0 ≤ initialHeight env o := by
  unfold initialHeight
  apply jsRound_nonneg
  have hp2 : (0 : ℚ) ≤ ((preDims env o).2 : ℚ) := by exact_mod_cast (by omega : (0:ℤ) ≤ (preDims env o).2)
  exact mul_nonneg hp2 (initialScale_nonneg env o hW hH h1 h2)

end GeometryLemmas

section PngLemmas

/-- A successful `encodeWithBestQuality` on png returns exactly the blob
the single png encode produced. -/
lemma encodeWithBestQuality_png_ok (env : Env) (mode : ResizeMode)
    (B minQ q : ℚ) (w h : ℤ) (blob : Blob)
    (hok : encodeWithBestQuality env mode B minQ q .png w h = .ok blob) :
    env.encode mode .png w h none = some blob := by
  unfold encodeWithBestQuality at hok
  rw [if_pos rfl] at hok
  split at hok
  · exact absurd hok (by simp)
  · rename_i b0 hE
    split at hok
    · exact absurd hok (by simp)
    · simp only [Except.ok.injEq] at hok
      rw [← hok]
      exact hE

end PngLemmas

section Claims

/-- Claim C1 (budget invariant): every call to `compressImage` that
resolves successfully returns a file whose byte length is at most
`maxSizeMB * 1024 * 1024`; the lossy search only records in-budget blobs
and the png branch throws when its single encode exceeds the budget. -/
theorem budget_invariant (env : Env) (o : CompressionOptions) (r : CompressResult)
    (hok : runCompressImage env o = .ok r) :
    (r.size : ℚ) ≤ o.maxSizeMB * 1024 * 1024 := by
  simp only [runCompressImage] at hok
  split at hok
  · exact absurd hok (by simp)
  · split at hok
    · exact absurd hok (by simp)
    · rename_i blob w2 h2 fmt2 hloop
      simp only [Except.ok.injEq] at hok
      have hle := compressLoop_ok_size_le env o.resizeMode (maxSizeBytesOf o) o.minQuality
        o.quality o.preferredFormat 4 0 _ _ _ _ _ _ _ hloop
      rw [← hok]
      simpa [maxSizeBytesOf] using hle

/-- Claim C1 witness: under `envAlwaysSmall` and the default options the
call succeeds with a 1000-byte file, within the 0.1 MB budget. -/
theorem budget_invariant_witness :
    (((1000 : ℕ) : ℚ)) ≤ ({} : CompressionOptions).maxSizeMB * 1024 * 1024 :=
  budget_invariant envAlwaysSmall {}
    { size := 1000, mime := "image/webp", filename := "image.webp",
      width := 100, height := 100 } (by with_unfolding_all rfl)

/-- Claim C2 (refuted as stated; the code contradicts its own test,
which expects a rejection with the message about `maxSizeMB`): the
browser `compressImage` performs no option validation at all. With
`maxSizeMB = -1` it still probes formats and decodes, and rejects only
after the full retry loop with the generic size-failure error — and when
the decode fails the call rejects with the decode error, showing the
decode is reached despite the invalid configuration. -/
theorem invalid_config_not_validated :
    runCompressImage envAlwaysSmall { maxSizeMB := -1 } = .error .sizeUnreachable ∧
    runCompressImage envDecodeFails { maxSizeMB := -1 } = .error .decodeFailed :=
  ⟨by with_unfolding_all rfl, by with_unfolding_all rfl⟩

/-- Claim C3 counterexample: a monotone synthetic encoder (`sizeStepAt73`,
1 byte up to quality 0.73, 2 bytes above) with budget 1 on the interval
`[0.5, 0.78]`. The quality 0.73 is in budget and in the interval, yet the
search returns the blob recorded at quality 0.64: the gap 0.09 exceeds
the claimed step tolerance 0.05. -/
theorem quality_search_step_tolerance_cex :
    (∀ x y : ℚ, x ≤ y → sizeStepAt73 x ≤ sizeStepAt73 y) ∧
    qualityLoop (fun q => some ⟨sizeStepAt73 q, "m"⟩) 1 .webp
        (searchFuel (1/2) (39/50)) (1/2) (39/50) none 0 =
      .ok (some ((16 : ℚ)/25, ⟨1, "m"⟩), 2) ∧
    ((sizeStepAt73 (73/100) : ℚ) ≤ 1) ∧ ((1 : ℚ)/2 ≤ 73/100) ∧
    ((73 : ℚ)/100 ≤ 39/50) ∧ ¬((73 : ℚ)/100 - 16/25 ≤ 1/20) := by
  refine ⟨?_, by with_unfolding_all rfl, by norm_num [sizeStepAt73], by norm_num,
    by norm_num, by norm_num⟩
  intro x y hxy
  unfold sizeStepAt73
  by_cases hy : y ≤ 73/100
  · rw [if_pos (le_trans hxy hy), if_pos hy]
  · by_cases hx : x ≤ 73/100
    · rw [if_pos hx, if_neg hy]
      omega
    · rw [if_neg hx, if_neg hy]

/-- Claim C3 (amended): for every monotone encoder the binary search
returns a blob within budget whose quality factor is within strictly
less than 0.1 — twice the 0.05 step — of any in-budget quality in the
interval; and it returns none only when every quality from
`minQuality + 0.05` upward exceeds the budget. Accepted candidates
overwrite strictly lower-quality ones, since each acceptance advances
the lower end past the accepted quality. -/
theorem quality_search_within_twice_step (sz : ℚ → ℕ) (mstr : String)
    (B minQ q : ℚ) (fmt : ImageFormat) (res : Option (ℚ × Blob)) (st : ℕ)
    (hmono : ∀ x y : ℚ, x ≤ y → sz x ≤ sz y)
    (hrun : qualityLoop (fun q0 => some ⟨sz q0, mstr⟩) B fmt
      (searchFuel minQ q) minQ q none 0 = .ok (res, st)) :
    (∀ qb b, res = some (qb, b) →
      (b.size : ℚ) ≤ B ∧ ∀ x : ℚ, (sz x : ℚ) ≤ B → x ≤ q → x < qb + 1/10) ∧
    (res = none → ∀ x : ℚ, (sz x : ℚ) ≤ B → x ≤ q → x < minQ + 1/20) := by
  have hopt := qualityLoop_opt sz mstr B q fmt hmono _ _ _ _ _ _ _ hrun
    (fun x _ hx0 => by linarith) (by simp)
  refine ⟨?_, hopt.2⟩
  intro qb b hres
  refine ⟨?_, hopt.1 qb b hres⟩
  rw [hres] at hrun
  exact qualityLoop_ok_size_le _ B fmt _ _ _ _ _ qb b st (by simp) hrun

/-- Claim C3 witness: with the constant 1-byte encoder and budget 1 on
the default interval `[0.1, 0.9]`, the search settles at quality
143/160 after 4 iterations and the amended bounds hold there. -/
theorem quality_search_within_twice_step_witness :
    (∀ x y : ℚ, x ≤ y → sizeConstOne x ≤ sizeConstOne y) ∧
    ((∀ qb b, (some ((143 : ℚ)/160, (⟨1, "m"⟩ : Blob)) : Option (ℚ × Blob)) = some (qb, b) →
        (b.size : ℚ) ≤ 1 ∧ ∀ x : ℚ, (sizeConstOne x : ℚ) ≤ 1 → x ≤ 9/10 → x < qb + 1/10) ∧
      ((some ((143 : ℚ)/160, (⟨1, "m"⟩ : Blob)) : Option (ℚ × Blob)) = none →
        ∀ x : ℚ, (sizeConstOne x : ℚ) ≤ 1 → x ≤ 9/10 → x < 1/10 + 1/20)) :=
  ⟨fun _ _ _ => le_refl 1,
    quality_search_within_twice_step sizeConstOne "m" 1 (1/10) (9/10) .webp
      (some ((143 : ℚ)/160, ⟨1, "m"⟩)) 4 (fun _ _ _ => le_refl 1)
      (by with_unfolding_all rfl)⟩

/-- Claim C4 (format negotiation): the negotiator picks the first
supported candidate in the fixed priority order
`[preferred, webp, avif, png, jpeg]` and defaults to jpeg when none is
supported; being a pure function of `(preferred, support)`, its choice
is deterministic for a fixed pair. -/
theorem format_negotiation_first_supported (p : ImageFormat) (s : ImageFormat → Bool) :
    negotiateFormat p s = negotiateSpec p s := by
  cases hp : s p <;> cases hw : s .webp <;> cases ha : s .avif <;>
    cases hn : s .png <;> cases hj : s .jpeg <;>
      simp [negotiateFormat, negotiateSpec, candidateFormats, List.find?, hp, hw, ha, hn, hj]

/-- Claim C5 counterexample: png preferred and supported, no lossy
fallback supported, and the first png encode (at the initial 100-pixel
canvas) over budget. The claim says this is surfaced as an error, but
the call instead downscales twice and succeeds with a png at 81 pixels. -/
theorem png_oversized_no_fallback_cex :
    runCompressImage envPngOnly { preferredFormat := .png } =
      .ok { size := 1000, mime := "image/png", filename := "image.png",
            width := 81, height := 81 } ∧
    envPngOnly.support .webp = false ∧ envPngOnly.support .avif = false ∧
    envPngOnly.support .jpeg = false ∧
    envPngOnly.encode .contain .png 100 100 none = some ⟨200000, "image/png"⟩ ∧
    ¬(((200000 : ℕ) : ℚ) ≤ maxSizeBytesOf { preferredFormat := .png }) ∧
    initialWidth envPngOnly { preferredFormat := .png } = 100 :=
  ⟨by with_unfolding_all rfl, rfl, rfl, rfl, rfl, by norm_num [maxSizeBytesOf],
    by with_unfolding_all rfl⟩

/-- Claim C5 (amended): a lossless (png) run encodes once per attempt
without a quality search; when the first attempt's png result is over
budget and a supported lossy fallback exists, the run switches to the
first supported lossy candidate and retries immediately at the same
dimensions — in particular, with png preferred, png over budget and webp
supported (and every webp encode in budget), the call succeeds with webp
output. Without a fallback the run downscales and retries, surfacing the
error only when attempts are exhausted (see the counterexample). -/
theorem png_oversized_lossy_fallback (env : Env) (o : CompressionOptions)
    (hpref : o.preferredFormat = .png)
    (hdec : env.decodeOk = true)
    (hpngsupp : env.support .png = true)
    (hwebpsupp : env.support .webp = true)
    (hminq : o.minQuality ≤ o.quality)
    (hpngover : ∀ b, env.encode o.resizeMode .png (initialWidth env o)
      (initialHeight env o) none = some b → (b.size : ℚ) > maxSizeBytesOf o)
    (hwebpsome : ∀ q0, env.encode o.resizeMode .webp (initialWidth env o)
      (initialHeight env o) (some q0) ≠ none)
    (hwebpfit : ∀ q0 b, env.encode o.resizeMode .webp (initialWidth env o)
      (initialHeight env o) (some q0) = some b →
      (b.size : ℚ) ≤ maxSizeBytesOf o ∧ b.mime = "image/webp") :
    ∃ r, runCompressImage env o = .ok r ∧ r.mime = "image/webp" := by
  have hneg : negotiateFormat o.preferredFormat env.support = .png := by
    unfold negotiateFormat candidateFormats
    rw [hpref, List.find?_cons_of_pos _ hpngsupp]
    rfl
  have hfall : findLossyFallback o.preferredFormat env.support = some .webp := by
    unfold findLossyFallback candidateFormats
    rw [hpref, List.find?_cons_of_neg _ (by
        show ¬(env.support ImageFormat.png && decide (ImageFormat.png ≠ ImageFormat.png) &&
          decide (ImageFormat.png ∈ lossyFallbackFormats)) = true
        rw [hpngsupp]
        decide),
      List.find?_cons_of_pos _ (by
        show (env.support ImageFormat.webp && decide (ImageFormat.webp ≠ ImageFormat.png) &&
          decide (ImageFormat.webp ∈ lossyFallbackFormats)) = true
        rw [hwebpsupp]
        decide)]
  have hfit : ∀ q0, ∃ b, env.encode o.resizeMode .webp (initialWidth env o)
      (initialHeight env o) (some q0) = some b ∧ (b.size : ℚ) ≤ maxSizeBytesOf o := by
    intro q0
    cases hE : env.encode o.resizeMode .webp (initialWidth env o)
        (initialHeight env o) (some q0) with
    | none => exact absurd hE (hwebpsome q0)
    | some b => exact ⟨b, rfl, (hwebpfit q0 b hE).1⟩
  obtain ⟨qb, b, st, hql, hqb⟩ := qualityLoop_allfit_some
    (fun q0 => env.encode o.resizeMode .webp (initialWidth env o)
      (initialHeight env o) (some q0))
    (maxSizeBytesOf o) .webp hfit (searchFuel o.minQuality o.quality)
    o.minQuality o.quality none 0 le_rfl hminq
  have hwebpok : encodeWithBestQuality env o.resizeMode (maxSizeBytesOf o)
      o.minQuality o.quality .webp (initialWidth env o) (initialHeight env o) = .ok b := by
    unfold encodeWithBestQuality
    rw [if_neg (fun hco => ImageFormat.noConfusion hco), hql]
  have hsize := (hwebpfit qb b hqb).1
  have hmime := (hwebpfit qb b hqb).2
  have hloop : compressLoop env o.resizeMode (maxSizeBytesOf o) o.minQuality o.quality
      o.preferredFormat 4 0 (initialWidth env o) (initialHeight env o) ImageFormat.png =
      .ok (b, initialWidth env o, initialHeight env o, ImageFormat.webp) := by
    show compressLoop env o.resizeMode (maxSizeBytesOf o) o.minQuality o.quality
      o.preferredFormat (3 + 1) 0 (initialWidth env o) (initialHeight env o)
      ImageFormat.png = _
    simp only [compressLoop]
    rw [if_pos (by omega : (0 : ℕ) < 3)]
    split
    · rename_i blob hblob
      exfalso
      have hE := encodeWithBestQuality_png_ok env o.resizeMode (maxSizeBytesOf o)
        o.minQuality o.quality (initialWidth env o) (initialHeight env o) blob hblob
      have hgt := hpngover blob hE
      have hle := encodeWithBestQuality_ok_le env o.resizeMode (maxSizeBytesOf o)
        o.minQuality o.quality .png (initialWidth env o) (initialHeight env o) blob hblob
      linarith
    · rename_i e he
      rw [if_pos (show True ∧ True from ⟨trivial, trivial⟩), hfall]
      show compressLoop env o.resizeMode (maxSizeBytesOf o) o.minQuality o.quality
        o.preferredFormat (2 + 1) (0 + 1) (initialWidth env o) (initialHeight env o)
        ImageFormat.webp = _
      simp only [compressLoop]
      rw [if_pos (by omega : 0 + 1 < 3)]
      split
      · rename_i blob2 hblob2
        rw [hwebpok] at hblob2
        injection hblob2 with hb2
        subst hb2
        rw [if_neg (not_lt.mpr hsize)]
      · rename_i e2 he2
        rw [hwebpok] at he2
        exact absurd he2 (by simp)
  refine ⟨CompressResult.mk b.size b.mime
      (deriveFilename env o
        (if ImageFormat.webp = ImageFormat.jpeg then "jpg" else ImageFormat.webp.str))
      (initialWidth env o) (initialHeight env o), ?_, hmime⟩
  simp only [runCompressImage, hneg]
  rw [hdec, if_neg (by simp), hloop]

/-- Claim C5 witness: under `envPngHugeLossySmall` with png preferred,
the call falls back to webp and succeeds. -/
theorem png_oversized_lossy_fallback_witness :
    ∃ r, runCompressImage envPngHugeLossySmall { preferredFormat := .png } = .ok r ∧
      r.mime = "image/webp" :=
  png_oversized_lossy_fallback envPngHugeLossySmall { preferredFormat := .png }
    rfl rfl rfl rfl (by norm_num)
    (fun b hb => by
      have hred : envPngHugeLossySmall.encode
          ({ preferredFormat := .png } : CompressionOptions).resizeMode .png
          (initialWidth envPngHugeLossySmall { preferredFormat := .png })
          (initialHeight envPngHugeLossySmall { preferredFormat := .png }) none =
          some ⟨200000, "image/png"⟩ := rfl
      rw [hred] at hb
      injection hb with hbb
      rw [← hbb]
      norm_num [maxSizeBytesOf])
    (fun q0 => by
      intro hcon
      exact Option.noConfusion (Eq.trans (Eq.symm rfl) hcon))
    (fun q0 b hb => by
      have hred : envPngHugeLossySmall.encode
          ({ preferredFormat := .png } : CompressionOptions).resizeMode .webp
          (initialWidth envPngHugeLossySmall { preferredFormat := .png })
          (initialHeight envPngHugeLossySmall { preferredFormat := .png }) (some q0) =
          some ⟨1000, "image/webp"⟩ := rfl
      rw [hred] at hb
      injection hb with hbb
      rw [← hbb]
      exact ⟨by norm_num [maxSizeBytesOf], rfl⟩)

/-- Claim C6 counterexample: under `envFitsAtNinety` (encodes fit exactly
when the width is at most 90), the claim's single-shrink semantics
succeeds at width 90, while the source succeeds at width 81: after a
failed lossy attempt the dimensions pass through TWO applications of the
0.9 factor, not one. -/
theorem single_downscale_cex :
    compressLoopSingleShrink envFitsAtNinety .contain (maxSizeBytesOf {}) (1/10) (9/10)
        .webp 4 0 100 100 .webp =
      .ok (⟨1000, "image/webp"⟩, 90, 90, .webp) ∧
    compressLoop envFitsAtNinety .contain (maxSizeBytesOf {}) (1/10) (9/10)
        .webp 4 0 100 100 .webp =
      .ok (⟨1000, "image/webp"⟩, 81, 81, .webp) ∧
    (90 : ℤ) ≠ 81 :=
  ⟨by with_unfolding_all rfl, by with_unfolding_all rfl, by decide⟩

/-- Claim C6 (amended): when a lossy attempt fails with attempts
remaining (and no png fallback applies), the orchestrator enters the
next attempt with both dimensions shrunk by two applications of the 0.9
step factor: once in the catch block and once more by the trailing
oversize check, which sees the null blob. -/
theorem lossy_failure_downscales_twice (env : Env) (mode : ResizeMode)
    (B minQ q : ℚ) (pref : ImageFormat) (fuel attempts : ℕ) (w h : ℤ)
    (fmt : ImageFormat) (e : CompressError)
    (hE : encodeWithBestQuality env mode B minQ q fmt w h = .error e)
    (hfmt : fmt ≠ .png)
    (hA : attempts + 1 < 3) :
    compressLoop env mode B minQ q pref (fuel + 1) attempts w h fmt =
      compressLoop env mode B minQ q pref fuel (attempts + 1)
        (shrinkDim (shrinkDim w)) (shrinkDim (shrinkDim h)) fmt := by
  simp only [compressLoop]
  rw [if_pos (by omega : attempts < 3)]
  split
  · rename_i blob hblob
    rw [hE] at hblob
    exact absurd hblob (by simp)
  · rename_i e2 he2
    rw [hE] at he2
    injection he2 with he3
    subst he3
    rw [if_neg (show ¬(fmt = ImageFormat.png ∧ attempts + 1 = 1) by simp [hfmt])]
    rw [if_pos hA]

/-- Claim C6 witness: under `envAlwaysHuge` the first webp attempt at
100 pixels fails and the next attempt starts at 81 pixels (two shrink
applications), not 90. -/
theorem lossy_failure_downscales_twice_witness :
    (encodeWithBestQuality envAlwaysHuge .contain (maxSizeBytesOf {}) (1/10) (9/10)
      .webp 100 100 = .error .sizeUnreachable) ∧
    compressLoop envAlwaysHuge .contain (maxSizeBytesOf {}) (1/10) (9/10)
        .webp (3 + 1) 0 100 100 .webp =
      compressLoop envAlwaysHuge .contain (maxSizeBytesOf {}) (1/10) (9/10)
        .webp 3 1 81 81 .webp :=
  by
  have h81 : shrinkDim (shrinkDim (100 : ℤ)) = 81 := by with_unfolding_all rfl
  have hstep := lossy_failure_downscales_twice envAlwaysHuge .contain (maxSizeBytesOf {})
    (1/10) (9/10) .webp 3 0 100 100 .webp .sizeUnreachable
    (by with_unfolding_all rfl)
    (fun hco => ImageFormat.noConfusion hco) (by omega)
  rw [h81] at hstep
  exact ⟨by with_unfolding_all rfl, hstep⟩

/-- Claim C7 (attempt ceiling): when every encode the environment can
produce is over budget and the negotiated format is lossy, the call
rejects with the size-failure error; three units of loop fuel (three
failing iterations) already produce that rejection, and any larger fuel
gives the same result — the loop never exceeds three failing attempts
and never diverges. -/
theorem unreachable_budget_rejects (env : Env) (o : CompressionOptions)
    (hdec : env.decodeOk = true)
    (hsome : ∀ m0 f0 w0 h0 q0, env.encode m0 f0 w0 h0 q0 ≠ none)
    (hover : ∀ m0 f0 w0 h0 q0 b, env.encode m0 f0 w0 h0 q0 = some b →
      (b.size : ℚ) > maxSizeBytesOf o)
    (hfmt : negotiateFormat o.preferredFormat env.support ≠ .png) :
    runCompressImage env o = .error .sizeUnreachable ∧
    (∀ fuel, 3 ≤ fuel → ∀ w h : ℤ,
      compressLoop env o.resizeMode (maxSizeBytesOf o) o.minQuality o.quality
        o.preferredFormat fuel 0 w h (negotiateFormat o.preferredFormat env.support) =
        .error .sizeUnreachable) := by
  have hloop : ∀ fuel, 3 ≤ fuel → ∀ w h : ℤ,
      compressLoop env o.resizeMode (maxSizeBytesOf o) o.minQuality o.quality
        o.preferredFormat fuel 0 w h (negotiateFormat o.preferredFormat env.support) =
        .error .sizeUnreachable := by
    intro fuel hf w h
    exact compressLoop_allover env o.resizeMode (maxSizeBytesOf o) o.minQuality o.quality
      o.preferredFormat hsome hover fuel 0 w h _ hfmt (by omega) (by omega)
  refine ⟨?_, hloop⟩
  simp only [runCompressImage]
  rw [hdec, if_neg (by simp), hloop 4 (by omega) _ _]

/-- Claim C7 witness: under `envAlwaysHuge` and the default options the
call rejects with the size-failure error. -/
theorem unreachable_budget_rejects_witness :
    runCompressImage envAlwaysHuge {} = .error .sizeUnreachable ∧
    (∀ fuel, 3 ≤ fuel → ∀ w h : ℤ,
      compressLoop envAlwaysHuge ({} : CompressionOptions).resizeMode
        (maxSizeBytesOf {}) ({} : CompressionOptions).minQuality
        ({} : CompressionOptions).quality ({} : CompressionOptions).preferredFormat
        fuel 0 w h
        (negotiateFormat ({} : CompressionOptions).preferredFormat envAlwaysHuge.support) =
        .error .sizeUnreachable) :=
  unreachable_budget_rejects envAlwaysHuge {} rfl
    (fun m0 f0 w0 h0 q0 => by
      intro hcon
      exact Option.noConfusion (Eq.trans (Eq.symm rfl) hcon))
    (fun m0 f0 w0 h0 q0 b hb => by
      have hred : envAlwaysHuge.encode m0 f0 w0 h0 q0 = some ⟨200000, mimeOf f0⟩ := rfl
      rw [hred] at hb
      injection hb with hbb
      rw [← hbb]
      norm_num [maxSizeBytesOf])
    (by decide)

/-- Claim C8 (quality-search termination): for `0 ≤ minQuality ≤ quality
≤ 1` the binary-search loop never exhausts the fuel estimate for its
interval (each iteration shortens the interval by at least 0.05, so it
terminates), and performs at most 21 encode iterations. -/
theorem quality_search_terminates_bounded (e : ℚ → Option Blob) (B : ℚ)
    (fmt : ImageFormat) (low high : ℚ)
    (h0 : 0 ≤ low) (h1 : low ≤ high) (h2 : high ≤ 1) :
    qualityLoop e B fmt (searchFuel low high) low high none 0 ≠ .error .outOfFuel ∧
    (∀ res st, qualityLoop e B fmt (searchFuel low high) low high none 0 = .ok (res, st) →
      st ≤ 21) := by
  refine ⟨qualityLoop_ne_outOfFuel e B fmt _ low high none 0 le_rfl, ?_⟩
  intro res st hrun
  have hst := qualityLoop_steps_le e B fmt _ low high none 0 res st hrun
  have hF : searchFuel low high ≤ 22 := by
    unfold searchFuel
    have hceil : ⌈(20 * (high - low) : ℚ)⌉ ≤ 20 := by
      rw [Int.ceil_le]
      push_cast
      linarith
    have hnn : (0 : ℤ) ≤ ⌈(20 * (high - low) : ℚ)⌉ := Int.ceil_nonneg (by linarith)
    omega
  omega

/-- Claim C8 witness: the default interval `[0.1, 0.9]` with a constant
encoder stays within the iteration bound. -/
theorem quality_search_terminates_bounded_witness :
    (qualityLoop (fun _ => some ⟨1, "m"⟩) 1 .webp (searchFuel (1/10) (9/10))
      (1/10) (9/10) none 0 ≠ .error .outOfFuel) ∧
    (∀ res st, qualityLoop (fun _ => some ⟨1, "m"⟩) 1 .webp (searchFuel (1/10) (9/10))
      (1/10) (9/10) none 0 = .ok (res, st) → st ≤ 21) :=
  quality_search_terminates_bounded (fun _ => some ⟨1, "m"⟩) 1 .webp (1/10) (9/10)
    (by norm_num) (by norm_num) (by norm_num)

/-- Claim C9 (canvas dimension invariant): with integral pixel budgets
and positive pre-downscaled source dimensions, the initial canvas
dimensions `round(orig * min(maxWidth/origW, maxHeightAdjusted/origH, 1))`
never exceed the budgets, and the retry loop only shrinks them, so every
successful outcome satisfies `width ≤ maxWidth` and
`height ≤ maxHeight or maxWidth`. -/
theorem dimension_invariant (env : Env) (o : CompressionOptions) (mW mH : ℕ)
    (r : CompressResult)
    (hW : o.maxWidth = (mW : ℚ)) (hH : maxHeightAdjusted o = (mH : ℚ))
    (h1 : 1 ≤ (preDims env o).1) (h2 : 1 ≤ (preDims env o).2)
    (hok : runCompressImage env o = .ok r) :
    r.width ≤ (mW : ℤ) ∧ r.height ≤ (mH : ℤ) ∧
      r.width ≤ initialWidth env o ∧ r.height ≤ initialHeight env o := by
  have hWnn : 0 ≤ o.maxWidth := by rw [hW]; exact Nat.cast_nonneg mW
  have hHnn : 0 ≤ maxHeightAdjusted o := by rw [hH]; exact Nat.cast_nonneg mH
  have hwnn := initialWidth_nonneg env o hWnn hHnn h1 h2
  have hhnn := initialHeight_nonneg env o hWnn hHnn h1 h2
  simp only [runCompressImage] at hok
  split at hok
  · exact absurd hok (by simp)
  · split at hok
    · exact absurd hok (by simp)
    · rename_i blob w2 h2' fmt2 hloop
      simp only [Except.ok.injEq] at hok
      obtain ⟨a1, a2, a3, a4⟩ := compressLoop_dims_le env o.resizeMode (maxSizeBytesOf o)
        o.minQuality o.quality o.preferredFormat 4 0 _ _ _ _ _ _ _ hwnn hhnn hloop
      rw [← hok]
      exact ⟨le_trans a1 (initialWidth_le env o mW hW h1),
        le_trans a2 (initialHeight_le env o mH hH h2), a1, a2⟩

/-- Claim C9 witness: under `envAlwaysSmall` and default options the
100-pixel output respects the 800-pixel budgets. -/
theorem dimension_invariant_witness :
    ({ size := 1000, mime := "image/webp", filename := "image.webp",
       width := 100, height := 100 } : CompressResult).width ≤ ((800 : ℕ) : ℤ) ∧
    ({ size := 1000, mime := "image/webp", filename := "image.webp",
       width := 100, height := 100 } : CompressResult).height ≤ ((800 : ℕ) : ℤ) ∧
    ({ size := 1000, mime := "image/webp", filename := "image.webp",
       width := 100, height := 100 } : CompressResult).width ≤
      initialWidth envAlwaysSmall {} ∧
    ({ size := 1000, mime := "image/webp", filename := "image.webp",
       width := 100, height := 100 } : CompressResult).height ≤
      initialHeight envAlwaysSmall {} :=
  dimension_invariant envAlwaysSmall {} 800 800
    { size := 1000, mime := "image/webp", filename := "image.webp",
      width := 100, height := 100 }
    (by norm_num) (by norm_num [maxHeightAdjusted])
    (by norm_num [preDims, envAlwaysSmall, maxHeightAdjusted])
    (by norm_num [preDims, envAlwaysSmall, maxHeightAdjusted])
    (by with_unfolding_all rfl)

/-- Claim C10 (option noninterference): two runs over the same
environment whose options differ only in `debug`, `preserveExif` and
`progressive` produce identical results — those fields are never read by
any decode, draw or encode step of the browser path. -/
theorem debug_exif_progressive_noninterference (env : Env) (o : CompressionOptions)
    (d1 d2 p1 p2 g1 g2 : Bool) :
    runCompressImage env { o with debug := d1, preserveExif := p1, progressive := g1 } =
      runCompressImage env { o with debug := d2, preserveExif := p2, progressive := g2 } :=
  rfl

end Claims

end ImageCompression
